import Mathlib

/-!
Shallow embedding of the `flare-flags` client (src/src/client.ts).

The repository holds two near-duplicate rewrites of the `FlareFlags` class in
`client.ts`.  The second rewrite (lines 154-253) is the main model, embedded in
namespace `FlareFlags`; the first rewrite (lines 32-117) is embedded in
namespace `FlareFlagsA` for the equivalence claim.

JavaScript scalars (string | number | boolean) are modelled by the tagged
union `Value`; JavaScript records (`Record<string, _>`) by association lists
with first-match lookup (a record never has duplicate keys, and writing an
existing key keeps its insertion position, which `recordSet` mirrors).
-/

/-- A JavaScript scalar: string, number, or boolean.  Strict equality `===`
is equality of tag and payload, with no coercion. -/
inductive Value where
  | str (s : String)
  | num (n : Int)
  | bool (b : Bool)
deriving DecidableEq, Repr

/-- `Properties = Record<string, string | number | boolean>` (types.ts). -/
abbrev Properties := List (String × Value)

/-- The runtime user object `{ id, ...properties }`: one flat JavaScript
object; `user[key]` is modelled by first-match lookup. -/
abbrev User := List (String × Value)

/-- Modelled from the spec: `COHORT_PROPERTY_PREFIX` lives in the missing
`src/constants.ts`; the spec's wire-format section and the repository README
fix it to the literal `"__cohort__"`.  (The trailing word of the source name
collides with Lean notation keywords, hence the shortened Lean name.) -/
def COHORT_MARKER : String := "__cohort__"

/-- A matcher (types.ts `Matchers` element): either a string (a user id, or a
cohort reference when it starts with the cohort marker) or a property map. -/
inductive Matcher where
  | id (s : String)
  | props (p : Properties)
deriving DecidableEq, Repr

abbrev Matchers := List Matcher

/-- `Config` from types.ts: cohort-name → matcher list, and
flag-name → `[boolean, ...Matchers]`. -/
structure Config where
  cohorts : List (String × Matchers)
  flags : List (String × (Bool × Matchers))
deriving DecidableEq, Repr

/-- Modelled from the spec: `DEFAULT_CONFIG` lives in the missing
`src/constants.ts`; the spec says the configuration "starts at a sentinel
'unset' value equivalent to an empty cohort/flag mapping". -/
def DEFAULT_CONFIG : Config := ⟨[], []⟩

/-- Record lookup `r[k]` on a JavaScript record modelled as an association
list: first match wins; `none` stands for `undefined`. -/
def recordGet : List (String × α) → String → Option α
  | [], _ => none
  | (k₀, v₀) :: rest, k => if k₀ = k then some v₀ else recordGet rest k

/-- `user[key]` (JavaScript property access on the user object). -/
def getProp (user : User) (key : String) : Option Value :=
  recordGet user key

/-- Character-list test that `p` starts `s` (kernel-reducible model of what
`String.prototype.startsWith` checks). -/
def leadingChars : List Char → List Char → Bool
  | [], _ => true
  | _ :: _, [] => false
  | c :: p, d :: s => decide (c = d) && leadingChars p s

/-- JavaScript `s.startsWith(p)`. -/
def strStartsWith (s p : String) : Bool :=
  leadingChars p.data s.data

/-- JavaScript `s.slice(n)`: drop the first `n` characters. -/
def strDrop (s : String) (n : Nat) : String :=
  ⟨s.data.drop n⟩

/-- The body of the arrow function passed to `matchers.some` in `matchUser`
(client.ts lines 139-152): a string matcher starting with the cohort marker
is a cohort reference tested against the membership set; any other string is
compared with `===` against `user.id`; a property matcher requires every one
of its entries to equal the user's value at that key under `===`. -/
def matchOne (user : User) (cohorts : List String) (m : Matcher) : Bool :=
  match m with
  | .id s =>
      if strStartsWith s COHORT_MARKER then
        decide (strDrop s COHORT_MARKER.length ∈ cohorts)
      else
        decide (some (Value.str s) = getProp user "id")
  | .props p =>
      p.all fun kv => decide (getProp user kv.1 = some kv.2)

/-- `matchUser` (client.ts lines 134-152): OR over the matcher list; the
cohort-membership set defaults to empty, as in the source. -/
def matchUser (user : User) (matchers : Matchers)
    (cohorts : List String := []) : Bool :=
  matchers.any (matchOne user cohorts)

/-- JavaScript record assignment `r[k] = v`: an existing key keeps its
insertion position and gets the new value; a fresh key is appended. -/
def recordSet : List (String × α) → String → α → List (String × α)
  | [], k, v => [(k, v)]
  | (k₀, v₀) :: rest, k, v =>
      if k₀ = k then (k, v) :: rest else (k₀, v₀) :: recordSet rest k v

/-- Key sequence of a record. -/
def keysOf (l : List (String × α)) : List String :=
  l.map Prod.fst

/-- The `matchedCohorts` set built by `#evalFlags` (client.ts lines 217-226):
with no user the set stays empty; otherwise every cohort whose matcher list
matches the user (with the default empty membership set) is added. -/
def resolveCohorts (user : Option User)
    (cohorts : List (String × Matchers)) : List String :=
  match user with
  | none => []
  | some u => ((cohorts.filter fun c => matchUser u c.2).map Prod.fst)

/-- The value computed for one flag by the per-flag loop body of `#evalFlags`
(client.ts lines 228-248): no config entry → the default; `[true, ...]` →
true; `[false, ...matchers]` → user present and `matchUser` with the
resolved cohort set. -/
def flagValue (cfg : Config) (user : Option User) (matchedCohorts : List String)
    (name : String) (dflt : Bool) : Bool :=
  match recordGet cfg.flags name with
  | none => dflt
  | some (isOn, matchers) =>
      if isOn then true
      else
        match user with
        | none => false
        | some u => matchUser u matchers matchedCohorts

/-- The snapshot `#evalFlags` leaves behind: the per-flag loop writes
`flagValue` into the record at every default key, so (the keys of the stored
record being exactly the default keys) the result is this map. -/
def evalSnapshot (defaults : List (String × Bool)) (cfg : Config)
    (user : Option User) : List (String × Bool) :=
  let mc := resolveCohorts user cfg.cohorts
  defaults.map fun nd => (nd.1, flagValue cfg user mc nd.1 nd.2)

/-- One evaluator state (fields of the second `FlareFlags` class).  Listener
callbacks are opaque to the model and represented by identities (`Nat`);
`notifyLog` records, for every notification round fired so far, the listener
set that was notified (in registration order), so "how often each listener
ran" is readable off the state. -/
structure ClientState where
  defaultValues : List (String × Bool)
  config : Option Config
  user : Option User
  evalFlagValues : List (String × Bool)
  listeners : List Nat
  notifyLog : List (List Nat)
deriving DecidableEq, Repr

namespace FlareFlags

/-- Constructor: defaults frozen, snapshot starts as a copy of them, the
config field starts at `DEFAULT_CONFIG` (an object, hence truthy: `some`). -/
def init (defaults : List (String × Bool)) : ClientState :=
  { defaultValues := defaults
    config := some DEFAULT_CONFIG
    user := none
    evalFlagValues := defaults
    listeners := []
    notifyLog := [] }

/-- `#notifyListeners` (client.ts lines 205-209): call every registered
listener once, in registration order — recorded as one round in the log. -/
def notifyListeners (s : ClientState) : ClientState :=
  { s with notifyLog := s.notifyLog ++ [s.listeners] }

/-- The loop body of `#resetEvalFlagValues` (client.ts lines 190-203): if the
stored value differs from the default, write the default and mark changed. -/
def resetStep (acc : List (String × Bool) × Bool) (nd : String × Bool) :
    List (String × Bool) × Bool :=
  if recordGet acc.1 nd.1 = some nd.2 then acc
  else (recordSet acc.1 nd.1 nd.2, true)

/-- `#resetEvalFlagValues` (client.ts lines 190-203). -/
def resetEvalFlagValues (s : ClientState) : ClientState :=
  let r := s.defaultValues.foldl resetStep (s.evalFlagValues, false)
  let s' := { s with evalFlagValues := r.1 }
  if r.2 then notifyListeners s' else s'

/-- The loop body of `#evalFlags` (client.ts lines 228-248): every branch
compares the stored value against the freshly computed one (accumulating
`isChanged`) and then writes it. -/
def evalStep (cfg : Config) (user : Option User) (mc : List String)
    (acc : List (String × Bool) × Bool) (nd : String × Bool) :
    List (String × Bool) × Bool :=
  let v := flagValue cfg user mc nd.1 nd.2
  (recordSet acc.1 nd.1 v, acc.2 || decide (recordGet acc.1 nd.1 ≠ some v))

/-- `#evalFlags` (client.ts lines 211-252).  A falsy `#config` (modelled as
`none`) resets to defaults; otherwise resolve cohorts once, re-evaluate every
flag of the default universe, and notify once if anything changed. -/
def evalFlags (s : ClientState) : ClientState :=
  match s.config with
  | none => resetEvalFlagValues s
  | some cfg =>
      let mc := resolveCohorts s.user cfg.cohorts
      let r := s.defaultValues.foldl (evalStep cfg s.user mc)
        (s.evalFlagValues, false)
      let s' := { s with evalFlagValues := r.1 }
      if r.2 then notifyListeners s' else s'

/-- `setConfig` (client.ts lines 166-169). -/
def setConfig (s : ClientState) (c : Config) : ClientState :=
  evalFlags { s with config := some c }

/-- The user object built by `identify` (client.ts line 172):
`{ id, ...properties }` — a property named `"id"` overrides the argument
(spread entries win; first-match lookup reaches them first). -/
def mkUser (id : String) (props : Properties) : User :=
  props ++ [("id", Value.str id)]

/-- `identify` (client.ts lines 171-174). -/
def identify (s : ClientState) (id : String)
    (props : Properties := []) : ClientState :=
  evalFlags { s with user := some (mkUser id props) }

/-- `isEnabled` (client.ts lines 176-178): `this.#evalFlagValues[flag] ?? false`. -/
def isEnabled (s : ClientState) (flag : String) : Bool :=
  (recordGet s.evalFlagValues flag).getD false

/-- `subscribe` (client.ts lines 180-183): `Set.add` — a listener already
present is not added again. -/
def subscribe (s : ClientState) (l : Nat) : ClientState :=
  if l ∈ s.listeners then s else { s with listeners := s.listeners ++ [l] }

/-- `reset` (client.ts lines 185-188). -/
def reset (s : ClientState) : ClientState :=
  resetEvalFlagValues { s with user := none }

end FlareFlags

/-- An externally triggered call on the common public interface. -/
inductive FFAction where
  | setConfig (c : Config)
  | identify (id : String) (props : Properties)
  | reset
  | subscribe (l : Nat)
deriving DecidableEq, Repr

/-- `true` for the three mutation entry points (not for `subscribe`). -/
def FFAction.isMutation : FFAction → Bool
  | .setConfig _ => true
  | .identify _ _ => true
  | .reset => true
  | .subscribe _ => false

/-- `true` for the two re-evaluating entry points `setConfig`/`identify`. -/
def FFAction.isEval : FFAction → Bool
  | .setConfig _ => true
  | .identify _ _ => true
  | _ => false

/-- `true` unless the action is `reset` (the first class has no `reset`). -/
def FFAction.isCommon : FFAction → Bool
  | .reset => false
  | _ => true

/-- `true` exactly for `setConfig` actions. -/
def FFAction.isSetConfig : FFAction → Bool
  | .setConfig _ => true
  | _ => false

namespace FlareFlags

def applyAction (s : ClientState) : FFAction → ClientState
  | .setConfig c => setConfig s c
  | .identify i p => identify s i p
  | .reset => reset s
  | .subscribe l => subscribe s l

/-- The state after a sequence of public calls on a fresh instance. -/
def run (defaults : List (String × Bool)) (acts : List FFAction) : ClientState :=
  acts.foldl applyAction (init defaults)

end FlareFlags

namespace FlareFlagsA

/-!  The first `FlareFlags` rewrite (client.ts lines 32-117).  Its fields
are the same data under other names (`#flags` for the snapshot,
`flagsDefaults` for the defaults), so it is modelled on the same state type.
Only `#evalFlags` differs textually: its falsy-config branch rebuilds the
snapshot wholesale, diffing by iterating the CURRENT snapshot's entries, and
only commits when something changed.  It has no `reset`. -/

def init (defaults : List (String × Bool)) : ClientState :=
  { defaultValues := defaults
    config := some DEFAULT_CONFIG
    user := none
    evalFlagValues := defaults
    listeners := []
    notifyLog := [] }

def notifyListeners (s : ClientState) : ClientState :=
  { s with notifyLog := s.notifyLog ++ [s.listeners] }

/-- `#evalFlags` (client.ts lines 67-116). -/
def evalFlags (s : ClientState) : ClientState :=
  match s.config with
  | none =>
      let newFlags := s.defaultValues
      let flagsChanged := s.evalFlagValues.any fun nd =>
        decide (recordGet newFlags nd.1 ≠ some nd.2)
      if flagsChanged then
        notifyListeners { s with evalFlagValues := newFlags }
      else s
  | some cfg =>
      let mc := resolveCohorts s.user cfg.cohorts
      let r := s.defaultValues.foldl (FlareFlags.evalStep cfg s.user mc)
        (s.evalFlagValues, false)
      let s' := { s with evalFlagValues := r.1 }
      if r.2 then notifyListeners s' else s'

def setConfig (s : ClientState) (c : Config) : ClientState :=
  evalFlags { s with config := some c }

/-- `indenify` (sic, client.ts lines 47-50). -/
def indenify (s : ClientState) (id : String)
    (props : Properties := []) : ClientState :=
  evalFlags { s with user := some (FlareFlags.mkUser id props) }

def isEnabled (s : ClientState) (flag : String) : Bool :=
  (recordGet s.evalFlagValues flag).getD false

def subscribe (s : ClientState) (l : Nat) : ClientState :=
  if l ∈ s.listeners then s else { s with listeners := s.listeners ++ [l] }

/-- The first class exposes no `reset`; a `reset` action is a no-op here (the
equivalence claim only quantifies over the common interface, which excludes
`reset`). -/
def applyAction (s : ClientState) : FFAction → ClientState
  | .setConfig c => setConfig s c
  | .identify i p => indenify s i p
  | .reset => s
  | .subscribe l => subscribe s l

def run (defaults : List (String × Bool)) (acts : List FFAction) : ClientState :=
  acts.foldl applyAction (init defaults)

end FlareFlagsA

/-- The common compare-update-accumulate step both per-flag loops reduce to,
parametrized by the freshly computed value. -/
def updStep (f : String → Bool → Bool) (acc : List (String × Bool) × Bool)
    (nd : String × Bool) : List (String × Bool) × Bool :=
  (recordSet acc.1 nd.1 (f nd.1 nd.2),
   acc.2 || decide (recordGet acc.1 nd.1 ≠ some (f nd.1 nd.2)))

/-- Shape invariant of every reachable state: the defaults are the
construction-time ones, the snapshot's key sequence is exactly the default key
sequence, the listener set has no duplicates, and the config field holds an
object (JavaScript objects are truthy). -/
def ReachInv (ds : List (String × Bool)) (s : ClientState) : Prop :=
  s.defaultValues = ds ∧ keysOf s.evalFlagValues = keysOf ds ∧
    s.listeners.Nodup ∧ s.config.isSome = true

/-- After a run of `setConfig`/`identify` calls the snapshot is in sync with
the current configuration and user. -/
def Synced (ds : List (String × Bool)) (s : ClientState) : Prop :=
  ∃ cfg, s.config = some cfg ∧
    s.evalFlagValues = evalSnapshot ds cfg s.user

/-! ### Record lemmas -/

@[simp] lemma recordGet_nil (k : String) :
    recordGet ([] : List (String × α)) k = none := rfl

@[simp] lemma recordGet_cons (k₀ : String) (v₀ : α) (l : List (String × α))
    (k : String) :
    recordGet ((k₀, v₀) :: l) k = if k₀ = k then some v₀ else recordGet l k := rfl

@[simp] lemma recordSet_nil (k : String) (v : α) :
    recordSet ([] : List (String × α)) k v = [(k, v)] := rfl

@[simp] lemma recordSet_cons (k₀ : String) (v₀ : α) (l : List (String × α))
    (k : String) (v : α) :
    recordSet ((k₀, v₀) :: l) k v
      = if k₀ = k then (k, v) :: l else (k₀, v₀) :: recordSet l k v := rfl

lemma recordSet_of_get_eq :
    ∀ (l : List (String × α)) (k : String) (v : α),
      recordGet l k = some v → recordSet l k v = l
  | [], _, _, h => by simp at h
  | (k₀, v₀) :: rest, k, v, h => by
      by_cases hk : k₀ = k
      · subst hk
        simp at h
        simp [h]
      · simp [hk] at h ⊢
        exact recordSet_of_get_eq rest k v h

@[simp] lemma keysOf_nil : keysOf ([] : List (String × α)) = [] := rfl

@[simp] lemma keysOf_cons (p : String × α) (l : List (String × α)) :
    keysOf (p :: l) = p.1 :: keysOf l := rfl

lemma keysOf_keyedMap (g : String → Bool → Bool) (l : List (String × Bool)) :
    keysOf (l.map fun nd => (nd.1, g nd.1 nd.2)) = keysOf l := by
  induction l with
  | nil => rfl
  | cons p rest ih => simpa using ih

lemma map_pair_eta : ∀ l : List (String × Bool),
    (l.map fun nd => (nd.1, nd.2)) = l
  | [] => rfl
  | p :: rest => by simp [map_pair_eta rest]

lemma recordGet_keyedMap (g : String → Bool → Bool) :
    ∀ (l : List (String × Bool)) (f : String),
      recordGet (l.map fun nd => (nd.1, g nd.1 nd.2)) f
        = (recordGet l f).map (g f)
  | [], _ => rfl
  | (k₀, v₀) :: rest, f => by
      by_cases hk : k₀ = f
      · subst hk; simp
      · simp [hk, recordGet_keyedMap g rest f]

lemma recordGet_eq_none_of_not_mem :
    ∀ (l : List (String × α)) (f : String), f ∉ keysOf l → recordGet l f = none
  | [], _, _ => rfl
  | (k₀, v₀) :: rest, f, h => by
      have hne : k₀ ≠ f := fun he => h (by simp [he])
      have htail : f ∉ keysOf rest := fun hm => h (by simp [hm])
      simp [hne, recordGet_eq_none_of_not_mem rest f htail]

lemma recordGet_isSome_of_mem :
    ∀ (l : List (String × α)) (f : String),
      f ∈ keysOf l → (recordGet l f).isSome = true
  | [], _, h => by simp at h
  | (k₀, v₀) :: rest, f, h => by
      by_cases hk : k₀ = f
      · simp [hk]
      · simp at h
        rcases h with h | h
        · exact absurd h.symm hk
        · simpa [hk] using recordGet_isSome_of_mem rest f h

lemma recordGet_ext :
    ∀ (v₁ v₂ : List (String × Bool)),
      keysOf v₁ = keysOf v₂ → (keysOf v₁).Nodup →
      (∀ f, f ∈ keysOf v₁ → recordGet v₁ f = recordGet v₂ f) → v₁ = v₂
  | [], [], _, _, _ => rfl
  | [], p :: _, h, _, _ => by simp at h
  | p :: _, [], h, _, _ => by simp at h
  | (k₁, a₁) :: t₁, (k₂, a₂) :: t₂, hkeys, hnd, hget => by
      simp at hkeys
      obtain ⟨hk, htk⟩ := hkeys
      subst hk
      have h₁ := hget k₁ (by simp)
      simp at h₁
      subst h₁
      obtain ⟨hnotin, hndtl⟩ := List.nodup_cons.mp
        (show (k₁ :: keysOf t₁).Nodup by simpa using hnd)
      have htl : t₁ = t₂ := by
        refine recordGet_ext t₁ t₂ htk hndtl ?_
        intro f hf
        have hne : k₁ ≠ f := fun he => hnotin (he ▸ hf)
        have := hget f (by simp [hf])
        simpa [hne] using this
      rw [htl]

/-! ### Characterizing the re-evaluation folds -/

lemma evalStep_eq (cfg : Config) (u : Option User) (mc : List String) :
    FlareFlags.evalStep cfg u mc = updStep (flagValue cfg u mc) := rfl

lemma resetStep_eq : FlareFlags.resetStep = updStep (fun _ d => d) := by
  funext acc nd
  unfold FlareFlags.resetStep updStep
  by_cases h : recordGet acc.1 nd.1 = some nd.2
  · simp [h, recordSet_of_get_eq _ _ _ h]
  · simp [h]

lemma foldl_updStep_cons (f : String → Bool → Bool) :
    ∀ (rest : List (String × Bool)) (p : String × Bool)
      (vr : List (String × Bool)) (c : Bool), p.1 ∉ keysOf rest →
      rest.foldl (updStep f) (p :: vr, c)
        = (p :: (rest.foldl (updStep f) (vr, c)).1,
           (rest.foldl (updStep f) (vr, c)).2)
  | [], p, vr, c, _ => rfl
  | nd :: rest, (pk, pv), vr, c, h => by
      have hne : pk ≠ nd.1 := fun he => h (by simp [he])
      have htail : pk ∉ keysOf rest := fun hm => h (by simp [hm])
      have hstep : updStep f ((pk, pv) :: vr, c) nd
          = ((pk, pv) :: (updStep f (vr, c) nd).1, (updStep f (vr, c) nd).2) := by
        unfold updStep
        simp [hne]
      rw [List.foldl_cons, hstep]
      have := foldl_updStep_cons f rest (pk, pv)
        (updStep f (vr, c) nd).1 (updStep f (vr, c) nd).2 htail
      simpa using this

lemma foldl_updStep_char (f : String → Bool → Bool) :
    ∀ (ds vals : List (String × Bool)) (c : Bool),
      keysOf vals = keysOf ds → (keysOf ds).Nodup →
      ds.foldl (updStep f) (vals, c)
        = (ds.map fun nd => (nd.1, f nd.1 nd.2),
           c || decide (vals ≠ ds.map fun nd => (nd.1, f nd.1 nd.2)))
  | [], vals, c, hk, _ => by
      have : vals = [] := by
        cases vals with
        | nil => rfl
        | cons p t => simp at hk
      subst this
      simp
  | nd :: ds, vals, c, hk, hnd => by
      match vals with
      | [] => simp at hk
      | (qk, qv) :: vr =>
        simp at hk
        obtain ⟨hq, hvr⟩ := hk
        subst hq
        obtain ⟨hnotin, hndtl⟩ := List.nodup_cons.mp
          (show (nd.1 :: keysOf ds).Nodup by simpa using hnd)
        have hstep : updStep f ((nd.1, qv) :: vr, c) nd
            = ((nd.1, f nd.1 nd.2) :: vr, c || decide (qv ≠ f nd.1 nd.2)) := by
          unfold updStep
          simp
        rw [List.foldl_cons, hstep,
          foldl_updStep_cons f ds (nd.1, f nd.1 nd.2) vr _ hnotin,
          foldl_updStep_char f ds vr _ hvr hndtl]
        simp only [List.map_cons, Prod.mk.injEq]
        refine ⟨trivial, ?_⟩
        by_cases h1 : qv = f nd.1 nd.2 <;>
          by_cases h2 : vr = ds.map fun nd => (nd.1, f nd.1 nd.2) <;>
          simp [h1, h2]

/-! ### Characterizing the state mutations -/

lemma keysOf_evalSnapshot (ds : List (String × Bool)) (cfg : Config)
    (u : Option User) : keysOf (evalSnapshot ds cfg u) = keysOf ds := by
  simp only [evalSnapshot]
  exact keysOf_keyedMap _ ds

lemma recordGet_evalSnapshot (ds : List (String × Bool)) (cfg : Config)
    (u : Option User) (f : String) :
    recordGet (evalSnapshot ds cfg u) f
      = (recordGet ds f).map
          (flagValue cfg u (resolveCohorts u cfg.cohorts) f) := by
  simp only [evalSnapshot]
  exact recordGet_keyedMap _ ds f

lemma evalFlags_char :
    ∀ (s : ClientState) (cfg : Config), s.config = some cfg →
      keysOf s.evalFlagValues = keysOf s.defaultValues →
      (keysOf s.defaultValues).Nodup →
      FlareFlags.evalFlags s
        = { s with
            evalFlagValues := evalSnapshot s.defaultValues cfg s.user,
            notifyLog := s.notifyLog ++
              (if s.evalFlagValues = evalSnapshot s.defaultValues cfg s.user
               then [] else [s.listeners]) } := by
  rintro ⟨dv, cf, us, ev, ls, lg⟩ cfg hc hk hnd
  simp only at hc hk hnd
  subst hc
  simp only [FlareFlags.evalFlags, evalStep_eq]
  rw [foldl_updStep_char _ _ _ _ hk hnd]
  by_cases h : ev = evalSnapshot dv cfg us
  · simp [evalSnapshot] at h
    simp [h, evalSnapshot]
  · simp [evalSnapshot] at h
    simp [h, evalSnapshot, FlareFlags.notifyListeners]

lemma resetEvalFlagValues_char :
    ∀ (s : ClientState),
      keysOf s.evalFlagValues = keysOf s.defaultValues →
      (keysOf s.defaultValues).Nodup →
      FlareFlags.resetEvalFlagValues s
        = { s with
            evalFlagValues := s.defaultValues,
            notifyLog := s.notifyLog ++
              (if s.evalFlagValues = s.defaultValues
               then [] else [s.listeners]) } := by
  rintro ⟨dv, cf, us, ev, ls, lg⟩ hk hnd
  simp only at hk hnd
  simp only [FlareFlags.resetEvalFlagValues, resetStep_eq]
  rw [foldl_updStep_char _ _ _ _ hk hnd]
  simp only [map_pair_eta]
  by_cases h : ev = dv
  · simp [h]
  · simp [h, FlareFlags.notifyListeners]

lemma setConfig_char (s : ClientState) (c : Config)
    (hk : keysOf s.evalFlagValues = keysOf s.defaultValues)
    (hnd : (keysOf s.defaultValues).Nodup) :
    FlareFlags.setConfig s c
      = { s with
          config := some c,
          evalFlagValues := evalSnapshot s.defaultValues c s.user,
          notifyLog := s.notifyLog ++
            (if s.evalFlagValues = evalSnapshot s.defaultValues c s.user
             then [] else [s.listeners]) } := by
  unfold FlareFlags.setConfig
  exact evalFlags_char { s with config := some c } c rfl hk hnd

lemma identify_char (s : ClientState) (cfg : Config) (i : String)
    (props : Properties) (hc : s.config = some cfg)
    (hk : keysOf s.evalFlagValues = keysOf s.defaultValues)
    (hnd : (keysOf s.defaultValues).Nodup) :
    FlareFlags.identify s i props
      = { s with
          user := some (FlareFlags.mkUser i props),
          evalFlagValues := evalSnapshot s.defaultValues cfg
            (some (FlareFlags.mkUser i props)),
          notifyLog := s.notifyLog ++
            (if s.evalFlagValues
                = evalSnapshot s.defaultValues cfg
                    (some (FlareFlags.mkUser i props))
             then [] else [s.listeners]) } := by
  unfold FlareFlags.identify
  exact evalFlags_char { s with user := some (FlareFlags.mkUser i props) } cfg hc hk hnd

lemma reset_char (s : ClientState)
    (hk : keysOf s.evalFlagValues = keysOf s.defaultValues)
    (hnd : (keysOf s.defaultValues).Nodup) :
    FlareFlags.reset s
      = { s with
          user := none,
          evalFlagValues := s.defaultValues,
          notifyLog := s.notifyLog ++
            (if s.evalFlagValues = s.defaultValues
             then [] else [s.listeners]) } := by
  unfold FlareFlags.reset
  exact resetEvalFlagValues_char { s with user := none } hk hnd

/-! ### Reachability invariants -/

lemma inv_init (ds : List (String × Bool)) : ReachInv ds (FlareFlags.init ds) :=
  ⟨rfl, rfl, List.nodup_nil, rfl⟩

lemma inv_applyAction {ds : List (String × Bool)} {s : ClientState}
    (hnd : (keysOf ds).Nodup) (h : ReachInv ds s) (a : FFAction) :
    ReachInv ds (FlareFlags.applyAction s a) := by
  obtain ⟨hdv, hk, hls, hcs⟩ := h
  have hk' : keysOf s.evalFlagValues = keysOf s.defaultValues := by
    rw [hdv]; exact hk
  have hnd' : (keysOf s.defaultValues).Nodup := by rw [hdv]; exact hnd
  cases a with
  | setConfig c =>
      rw [FlareFlags.applyAction, setConfig_char s c hk' hnd']
      exact ⟨hdv, by rw [keysOf_evalSnapshot, hdv], hls, rfl⟩
  | identify i p =>
      obtain ⟨cfg, hcfg⟩ := Option.isSome_iff_exists.mp hcs
      rw [FlareFlags.applyAction, identify_char s cfg i p hcfg hk' hnd']
      exact ⟨hdv, by rw [keysOf_evalSnapshot, hdv], hls, by simp [hcfg]⟩
  | reset =>
      rw [FlareFlags.applyAction, reset_char s hk' hnd']
      exact ⟨hdv, by rw [hdv], hls, hcs⟩
  | subscribe l =>
      rw [FlareFlags.applyAction]
      unfold FlareFlags.subscribe
      by_cases hm : l ∈ s.listeners
      · simpa [hm] using ⟨hdv, hk, hls, hcs⟩
      · refine ⟨by simp [hm, hdv], by simp [hm, hk], ?_, by simp [hm, hcs]⟩
        simp only [hm, if_neg, ite_false]
        rw [← List.concat_eq_append]
        exact hls.concat hm

lemma inv_foldl {ds : List (String × Bool)} (hnd : (keysOf ds).Nodup) :
    ∀ (acts : List FFAction) (s : ClientState), ReachInv ds s →
      ReachInv ds (acts.foldl FlareFlags.applyAction s)
  | [], _, h => h
  | a :: acts, _, h =>
      inv_foldl hnd acts _ (inv_applyAction hnd h a)

lemma inv_run (ds : List (String × Bool)) (acts : List FFAction)
    (hnd : (keysOf ds).Nodup) : ReachInv ds (FlareFlags.run ds acts) :=
  inv_foldl hnd acts _ (inv_init ds)

/-- With the initial (empty) configuration every flag evaluates to its
default. -/
lemma evalSnapshot_default (ds : List (String × Bool)) (u : Option User) :
    evalSnapshot ds DEFAULT_CONFIG u = ds := by
  have : ∀ nd : String × Bool,
      flagValue DEFAULT_CONFIG u (resolveCohorts u DEFAULT_CONFIG.cohorts)
        nd.1 nd.2 = nd.2 := by
    intro nd; rfl
  calc evalSnapshot ds DEFAULT_CONFIG u
      = ds.map fun nd => (nd.1, nd.2) := by
        simp only [evalSnapshot]
        exact List.map_congr_left fun nd _ => by rw [this nd]
    _ = ds := map_pair_eta ds

lemma synced_init (ds : List (String × Bool)) :
    Synced ds (FlareFlags.init ds) :=
  ⟨DEFAULT_CONFIG, rfl, (evalSnapshot_default ds none).symm⟩

lemma synced_applyAction {ds : List (String × Bool)} {s : ClientState}
    (hnd : (keysOf ds).Nodup) (hinv : ReachInv ds s) (a : FFAction)
    (ha : a.isEval = true) : Synced ds (FlareFlags.applyAction s a) := by
  obtain ⟨hdv, hk, hls, hcs⟩ := hinv
  have hk' : keysOf s.evalFlagValues = keysOf s.defaultValues := by
    rw [hdv]; exact hk
  have hnd' : (keysOf s.defaultValues).Nodup := by rw [hdv]; exact hnd
  cases a with
  | setConfig c =>
      rw [FlareFlags.applyAction, setConfig_char s c hk' hnd']
      exact ⟨c, rfl, by rw [hdv]⟩
  | identify i p =>
      obtain ⟨cfg, hcfg⟩ := Option.isSome_iff_exists.mp hcs
      rw [FlareFlags.applyAction, identify_char s cfg i p hcfg hk' hnd']
      exact ⟨cfg, hcfg, by rw [hdv]⟩
  | reset => simp [FFAction.isEval] at ha
  | subscribe l => simp [FFAction.isEval] at ha

lemma synced_foldl {ds : List (String × Bool)} (hnd : (keysOf ds).Nodup) :
    ∀ (acts : List FFAction) (s : ClientState), ReachInv ds s → Synced ds s →
      (∀ a ∈ acts, a.isEval = true) →
      Synced ds (acts.foldl FlareFlags.applyAction s)
  | [], _, _, hs, _ => hs
  | a :: acts, s, hi, _, hacts =>
      synced_foldl hnd acts _ (inv_applyAction hnd hi a)
        (synced_applyAction hnd hi a (hacts a (by simp)))
        (fun x hx => hacts x (by simp [hx]))

lemma synced_run (ds : List (String × Bool)) (acts : List FFAction)
    (hnd : (keysOf ds).Nodup) (hacts : ∀ a ∈ acts, a.isEval = true) :
    Synced ds (FlareFlags.run ds acts) :=
  synced_foldl hnd acts _ (inv_init ds) (synced_init ds) hacts

/-! ### Further helper lemmas -/

lemma resolveCohorts_subset {u : User} {cohDefs : List (String × Matchers)}
    {x : String} (h : x ∈ resolveCohorts (some u) cohDefs) :
    x ∈ keysOf cohDefs := by
  simp only [resolveCohorts, List.mem_map] at h
  obtain ⟨c, hc, hx⟩ := h
  exact hx ▸ List.mem_map_of_mem Prod.fst (List.mem_of_mem_filter hc)

lemma recordGet_append :
    ∀ (l₁ l₂ : List (String × α)) (k : String),
      recordGet (l₁ ++ l₂) k
        = match recordGet l₁ k with
          | some v => some v
          | none => recordGet l₂ k
  | [], _, _ => rfl
  | (k₀, v₀) :: rest, l₂, k => by
      by_cases hk : k₀ = k
      · simp [hk]
      · simp [hk, recordGet_append rest l₂ k]

lemma evalFlags_frame (s : ClientState) :
    (FlareFlags.evalFlags s).defaultValues = s.defaultValues ∧
    (FlareFlags.evalFlags s).config = s.config ∧
    (FlareFlags.evalFlags s).user = s.user ∧
    (FlareFlags.evalFlags s).listeners = s.listeners := by
  unfold FlareFlags.evalFlags FlareFlags.resetEvalFlagValues
    FlareFlags.notifyListeners
  cases s.config <;> dsimp only <;> split <;> simp

lemma reset_frame (s : ClientState) :
    (FlareFlags.reset s).defaultValues = s.defaultValues ∧
    (FlareFlags.reset s).config = s.config ∧
    (FlareFlags.reset s).user = none ∧
    (FlareFlags.reset s).listeners = s.listeners := by
  unfold FlareFlags.reset FlareFlags.resetEvalFlagValues
    FlareFlags.notifyListeners
  dsimp only
  split <;> simp

/-- Two snapshots over the same (duplicate-free) key sequence are equal as
records exactly when every key of that sequence reads the same value. -/
lemma snapshots_eq_iff (ds : List String) (v₁ v₂ : List (String × Bool))
    (h₁ : keysOf v₁ = ds) (h₂ : keysOf v₂ = ds) (hnd : ds.Nodup) :
    v₁ = v₂ ↔ ∀ f ∈ ds,
      (recordGet v₁ f).getD false = (recordGet v₂ f).getD false := by
  constructor
  · rintro rfl _ _; rfl
  · intro h
    refine recordGet_ext v₁ v₂ (h₁.trans h₂.symm) (h₁ ▸ hnd) ?_
    intro f hf
    have hf' : f ∈ ds := h₁ ▸ hf
    obtain ⟨a, ha⟩ := Option.isSome_iff_exists.mp
      (recordGet_isSome_of_mem v₁ f (h₁.symm ▸ hf'))
    obtain ⟨b, hb⟩ := Option.isSome_iff_exists.mp
      (recordGet_isSome_of_mem v₂ f (h₂.symm ▸ hf'))
    have := h f hf'
    rw [ha, hb] at this ⊢
    simpa using this

/-! ### The claims -/

/-- Claim C3: a property matcher is satisfied by a subject iff for every key in the
matcher's mapping the subject carries that key with a value equal by strict
scalar equality (`Value` carries the type tag, so `Value.num 25` never equals
`Value.str "25"`); extra subject properties are irrelevant (only the
matcher's own keys are quantified), a missing key makes `getProp` return
`none` and hence fails, and a type mismatch is an ordinary non-match — the
function is total, so no error is possible. -/
theorem C3_property_matcher_exact (u : User) (coh : List String)
    (p : Properties) :
    matchOne u coh (.props p) = true ↔ ∀ kv ∈ p, getProp u kv.1 = some kv.2 := by
  simp [matchOne]

/-- Claim C4: a cohort-reference matcher (cohort marker followed by a name) is
satisfied iff the stripped name is in the membership set; against the
resolved membership set a reference to a name that no configured cohort
carries never matches (the resolved set only contains configured cohort
names); and against the empty set — which is what cohort definitions are
evaluated with, `matchUser` being called there without a third argument — a
cohort reference never matches.  All cases return `false`, never an error. -/
theorem C4_cohort_reference (u : User) (cohDefs : List (String × Matchers))
    (s : String) (hpre : strStartsWith s COHORT_MARKER = true) :
    (∀ mem : List String,
        matchOne u mem (.id s)
          = decide (strDrop s COHORT_MARKER.length ∈ mem))
    ∧ (strDrop s COHORT_MARKER.length ∉ keysOf cohDefs →
        matchOne u (resolveCohorts (some u) cohDefs) (.id s) = false)
    ∧ matchOne u [] (.id s) = false := by
  have h1 : ∀ mem : List String,
      matchOne u mem (.id s)
        = decide (strDrop s COHORT_MARKER.length ∈ mem) := by
    intro mem
    simp [matchOne, hpre]
  refine ⟨h1, ?_, ?_⟩
  · intro hnot
    rw [h1]
    simp only [decide_eq_false_iff_not]
    exact fun hmem => hnot (resolveCohorts_subset hmem)
  · rw [h1]
    simp

theorem C4_cohort_reference_witness :
    strStartsWith "__cohort__beta" COHORT_MARKER = true ∧
    matchOne [("id", Value.str "u1")] [] (.id "__cohort__beta") = false :=
  ⟨by decide,
   (C4_cohort_reference [("id", Value.str "u1")] [("beta", [.id "u1"])]
      "__cohort__beta" (by decide)).2.2⟩

/-- Claim C9: when the `properties` argument of `identify` itself carries the key
`"id"`, the spread `{ id, ...properties }` lets the property value override
the `id` argument: the stored user's `"id"` slot holds `properties["id"]`,
so an identifier matcher (a plain string, no cohort marker) compares against
that value, and a property matcher on the key `"id"` also compares against
it — the user object is one flat record, its `"id"` slot being the subject's
identifier field. -/
theorem C9_identify_id_override (i : String) (props : Properties) (v : Value)
    (hv : recordGet props "id" = some v) :
    getProp (FlareFlags.mkUser i props) "id" = some v
    ∧ (∀ st : ClientState,
        (FlareFlags.applyAction st (.identify i props)).user
          = some (FlareFlags.mkUser i props))
    ∧ (∀ (s' : String) (coh : List String),
        strStartsWith s' COHORT_MARKER = false →
        matchOne (FlareFlags.mkUser i props) coh (.id s')
          = decide (Value.str s' = v))
    ∧ (∀ (w : Value) (coh : List String),
        matchOne (FlareFlags.mkUser i props) coh (.props [("id", w)])
          = decide (v = w)) := by
  have hid : getProp (FlareFlags.mkUser i props) "id" = some v := by
    unfold getProp FlareFlags.mkUser
    rw [recordGet_append, hv]
  refine ⟨hid, ?_, ?_, ?_⟩
  · intro st
    show (FlareFlags.identify st i props).user = _
    unfold FlareFlags.identify
    rw [(evalFlags_frame _).2.2.1]
  · intro s' coh hpre
    simp [matchOne, hpre, hid]
  · intro w coh
    simp [matchOne, hid]

theorem C9_identify_id_override_witness :
    recordGet [("id", Value.num 5)] "id" = some (Value.num 5) ∧
    getProp (FlareFlags.mkUser "u7" [("id", Value.num 5)]) "id"
      = some (Value.num 5) :=
  ⟨by decide, (C9_identify_id_override "u7" [("id", Value.num 5)]
      (Value.num 5) (by decide)).1⟩

/-- Claim C1: after any `setConfig`/`identify` sequence, a flag of the default
universe whose current configuration entry is `[false, ...matchers]` is
enabled iff a subject is present and at least one matcher in the entry's
list is satisfied by it (given its resolved cohort set); in particular an
empty matcher list always disables the flag, and without a subject the flag
is disabled whatever the matchers say. -/
theorem C1_off_rule_iff_match (ds : List (String × Bool)) (acts : List FFAction)
    (cfg : Config) (f : String) (ms : Matchers)
    (hnd : (keysOf ds).Nodup)
    (hacts : ∀ a ∈ acts, a.isEval = true)
    (hf : f ∈ keysOf ds)
    (hcfg : (FlareFlags.run ds acts).config = some cfg)
    (hrule : recordGet cfg.flags f = some (false, ms)) :
    (FlareFlags.isEnabled (FlareFlags.run ds acts) f = true
      ↔ ∃ u, (FlareFlags.run ds acts).user = some u
          ∧ matchUser u ms
              (resolveCohorts (FlareFlags.run ds acts).user cfg.cohorts) = true)
    ∧ (ms = [] → FlareFlags.isEnabled (FlareFlags.run ds acts) f = false)
    ∧ ((FlareFlags.run ds acts).user = none →
        FlareFlags.isEnabled (FlareFlags.run ds acts) f = false) := by
  obtain ⟨cfg', hc', hsnap⟩ := synced_run ds acts hnd hacts
  rw [hc'] at hcfg
  injection hcfg with hcc
  subst hcc
  obtain ⟨d, hd⟩ := Option.isSome_iff_exists.mp
    (recordGet_isSome_of_mem ds f hf)
  have hEn : FlareFlags.isEnabled (FlareFlags.run ds acts) f
      = flagValue cfg' (FlareFlags.run ds acts).user
          (resolveCohorts (FlareFlags.run ds acts).user cfg'.cohorts) f d := by
    unfold FlareFlags.isEnabled
    rw [hsnap, recordGet_evalSnapshot, hd]
    rfl
  rw [hEn]
  unfold flagValue
  rw [hrule]
  cases hu : (FlareFlags.run ds acts).user with
  | none => simp
  | some u =>
      refine ⟨by simp, ?_, by simp⟩
      rintro rfl
      simp [matchUser]

theorem C1_off_rule_iff_match_witness :
    FlareFlags.isEnabled
      (FlareFlags.run [("a", false)]
        [.setConfig ⟨[], [("a", (false, [.id "u1"]))]⟩, .identify "u1" []])
      "a" = true :=
  (C1_off_rule_iff_match [("a", false)]
      [.setConfig ⟨[], [("a", (false, [.id "u1"]))]⟩, .identify "u1" []]
      ⟨[], [("a", (false, [.id "u1"]))]⟩ "a" [.id "u1"]
      (by decide) (by decide) (by decide) (by decide) (by decide)).1.mpr
    ⟨FlareFlags.mkUser "u1" [], by decide, by decide⟩

/-- Claim C2: after any `setConfig`/`identify` sequence, a flag of the default
universe whose current configuration entry starts with `true` reads enabled,
whatever the subject (present, absent, matching or not) and whatever the
entry's matcher list — the matchers are never consulted. -/
theorem C2_always_on_dominates (ds : List (String × Bool))
    (acts : List FFAction) (cfg : Config) (f : String) (ms : Matchers)
    (hnd : (keysOf ds).Nodup)
    (hacts : ∀ a ∈ acts, a.isEval = true)
    (hf : f ∈ keysOf ds)
    (hcfg : (FlareFlags.run ds acts).config = some cfg)
    (hrule : recordGet cfg.flags f = some (true, ms)) :
    FlareFlags.isEnabled (FlareFlags.run ds acts) f = true := by
  obtain ⟨cfg', hc', hsnap⟩ := synced_run ds acts hnd hacts
  rw [hc'] at hcfg
  injection hcfg with hcc
  subst hcc
  obtain ⟨d, hd⟩ := Option.isSome_iff_exists.mp
    (recordGet_isSome_of_mem ds f hf)
  unfold FlareFlags.isEnabled
  rw [hsnap, recordGet_evalSnapshot, hd]
  show (some (flagValue _ _ _ f d)).getD false = true
  unfold flagValue
  rw [hrule]
  simp

theorem C2_always_on_dominates_witness :
    FlareFlags.isEnabled
      (FlareFlags.run [("a", false)]
        [.identify "nobody" [], .setConfig ⟨[], [("a", (true, [.id "zz"]))]⟩])
      "a" = true :=
  C2_always_on_dominates [("a", false)]
    [.identify "nobody" [], .setConfig ⟨[], [("a", (true, [.id "zz"]))]⟩]
    ⟨[], [("a", (true, [.id "zz"]))]⟩ "a" [.id "zz"]
    (by decide) (by decide) (by decide) (by decide) (by decide)

/-- Claim C7: in every reachable state, a flag name outside the constructor's
default key set reads `false`, even when the current configuration defines
it; the evaluated snapshot always carries exactly the default keys (one
entry per default key); and the evaluation engine only ever consults the
configuration's flag entries at default keys, so entries for other names
never influence any evaluated value. -/
theorem C7_flag_universe (ds : List (String × Bool)) (acts : List FFAction)
    (hnd : (keysOf ds).Nodup) :
    (∀ f, f ∉ keysOf ds →
        FlareFlags.isEnabled (FlareFlags.run ds acts) f = false)
    ∧ keysOf (FlareFlags.run ds acts).evalFlagValues = keysOf ds
    ∧ (∀ (cfg cfg' : Config) (u : Option User),
        cfg.cohorts = cfg'.cohorts →
        (∀ f ∈ keysOf ds, recordGet cfg.flags f = recordGet cfg'.flags f) →
        evalSnapshot ds cfg u = evalSnapshot ds cfg' u) := by
  obtain ⟨hdv, hk, hls, hcs⟩ := inv_run ds acts hnd
  refine ⟨?_, hk, ?_⟩
  · intro f hfn
    unfold FlareFlags.isEnabled
    rw [recordGet_eq_none_of_not_mem _ f (by rw [hk]; exact hfn)]
    rfl
  · intro cfg cfg' u hcoh hflags
    simp only [evalSnapshot, hcoh]
    refine List.map_congr_left fun nd hmem => ?_
    unfold flagValue
    rw [hflags nd.1 (List.mem_map_of_mem Prod.fst hmem)]

theorem C7_flag_universe_witness :
    FlareFlags.isEnabled
      (FlareFlags.run [("a", true)] [.setConfig ⟨[], [("b", (true, []))]⟩])
      "b" = false :=
  (C7_flag_universe [("a", true)] [.setConfig ⟨[], [("b", (true, []))]⟩]
      (by decide)).1 "b" (by decide)

/-- Claim C8: as long as `setConfig` has never been called, every flag of the
default universe reads its construction-time default, whatever `identify`,
`reset` or `subscribe` calls were made (the initial configuration is the
empty one, under which every flag evaluates to its default). -/
theorem C8_default_fallback (ds : List (String × Bool)) (acts : List FFAction)
    (f : String) (d : Bool)
    (hnd : (keysOf ds).Nodup)
    (hacts : ∀ a ∈ acts, a.isSetConfig = false)
    (hd : recordGet ds f = some d) :
    FlareFlags.isEnabled (FlareFlags.run ds acts) f = d := by
  suffices h : (FlareFlags.run ds acts).evalFlagValues = ds by
    unfold FlareFlags.isEnabled
    rw [h, hd]
    rfl
  suffices h : ∀ (as : List FFAction) (s : ClientState),
      s.defaultValues = ds → s.config = some DEFAULT_CONFIG →
      s.evalFlagValues = ds → (∀ a ∈ as, a.isSetConfig = false) →
      (as.foldl FlareFlags.applyAction s).evalFlagValues = ds by
    exact h acts (FlareFlags.init ds) rfl rfl rfl hacts
  intro as
  induction as with
  | nil => intro s _ _ hev _; exact hev
  | cons a as ih =>
      intro s hdv hcf hev has
      have hk' : keysOf s.evalFlagValues = keysOf s.defaultValues := by
        rw [hdv, hev]
      have hnd' : (keysOf s.defaultValues).Nodup := by rw [hdv]; exact hnd
      have hstep : (FlareFlags.applyAction s a).defaultValues = ds ∧
          (FlareFlags.applyAction s a).config = some DEFAULT_CONFIG ∧
          (FlareFlags.applyAction s a).evalFlagValues = ds := by
        cases a with
        | setConfig c => simp [FFAction.isSetConfig] at has
        | identify i p =>
            rw [FlareFlags.applyAction,
              identify_char s DEFAULT_CONFIG i p hcf hk' hnd']
            exact ⟨hdv, hcf, by rw [hdv, evalSnapshot_default]⟩
        | reset =>
            rw [FlareFlags.applyAction, reset_char s hk' hnd']
            exact ⟨hdv, hcf, hdv⟩
        | subscribe l =>
            rw [FlareFlags.applyAction]
            unfold FlareFlags.subscribe
            by_cases hm : l ∈ s.listeners <;> simp [hm, hdv, hcf, hev]
      rw [List.foldl_cons]
      exact ih (FlareFlags.applyAction s a) hstep.1 hstep.2.1 hstep.2.2
        fun x hx => has x (by simp [hx])

theorem C8_default_fallback_witness :
    FlareFlags.isEnabled
      (FlareFlags.run [("a", true)] [.identify "u" [], .reset, .subscribe 3])
      "a" = true :=
  C8_default_fallback [("a", true)] [.identify "u" [], .reset, .subscribe 3]
    "a" true (by decide) (by decide) (by decide)

/-- Claim C5: for each of the three mutation entry points (`setConfig`,
`identify`, `reset`) fired on a reachable state, one notification round —
naming every registered listener exactly once, the listener set being
duplicate-free — is appended iff some flag of the default universe reads a
different boolean after the mutation than before; if every flag reads the
same, the log is untouched.  Applying the same mutation twice therefore
notifies at most once: the second application recomputes an identical
snapshot.  -/
theorem C5_notification_policy (ds : List (String × Bool))
    (acts : List FFAction) (a : FFAction)
    (hnd : (keysOf ds).Nodup) (ha : a.isMutation = true) :
    ((∃ f ∈ keysOf ds,
        FlareFlags.isEnabled
            (FlareFlags.applyAction (FlareFlags.run ds acts) a) f
          ≠ FlareFlags.isEnabled (FlareFlags.run ds acts) f) →
      (FlareFlags.applyAction (FlareFlags.run ds acts) a).notifyLog
        = (FlareFlags.run ds acts).notifyLog
          ++ [(FlareFlags.run ds acts).listeners])
    ∧ ((∀ f ∈ keysOf ds,
        FlareFlags.isEnabled
            (FlareFlags.applyAction (FlareFlags.run ds acts) a) f
          = FlareFlags.isEnabled (FlareFlags.run ds acts) f) →
      (FlareFlags.applyAction (FlareFlags.run ds acts) a).notifyLog
        = (FlareFlags.run ds acts).notifyLog)
    ∧ (∀ l ∈ (FlareFlags.run ds acts).listeners,
        (FlareFlags.run ds acts).listeners.count l = 1) := by
  obtain ⟨hdv, hk, hls, hcs⟩ := inv_run ds acts hnd
  set s := FlareFlags.run ds acts with hs
  have hk' : keysOf s.evalFlagValues = keysOf s.defaultValues := by
    rw [hdv]; exact hk
  have hnd' : (keysOf s.defaultValues).Nodup := by rw [hdv]; exact hnd
  suffices h : ∃ NV, keysOf NV = keysOf ds ∧
      (FlareFlags.applyAction s a).evalFlagValues = NV ∧
      (FlareFlags.applyAction s a).notifyLog
        = s.notifyLog ++ (if s.evalFlagValues = NV then [] else [s.listeners]) by
    obtain ⟨NV, hkNV, hEV, hNL⟩ := h
    have hiff := snapshots_eq_iff (keysOf ds) s.evalFlagValues NV hk hkNV hnd
    refine ⟨?_, ?_, ?_⟩
    · rintro ⟨f, hfks, hneq⟩
      have hne : ¬s.evalFlagValues = NV := by
        intro he
        apply hneq
        unfold FlareFlags.isEnabled
        rw [hEV, ← he]
      rw [hNL, if_neg hne]
    · intro hall
      have heq : s.evalFlagValues = NV := by
        refine hiff.mpr fun f hf => ?_
        have hthis := hall f hf
        unfold FlareFlags.isEnabled at hthis
        rw [hEV] at hthis
        exact hthis.symm
      rw [hNL, if_pos heq, List.append_nil]
    · intro l hl
      exact List.count_eq_one_of_mem hls hl
  cases a with
  | setConfig c =>
      rw [FlareFlags.applyAction, setConfig_char s c hk' hnd']
      exact ⟨evalSnapshot s.defaultValues c s.user,
        by rw [keysOf_evalSnapshot, hdv], rfl, rfl⟩
  | identify i p =>
      obtain ⟨cfg, hcfg⟩ := Option.isSome_iff_exists.mp hcs
      rw [FlareFlags.applyAction, identify_char s cfg i p hcfg hk' hnd']
      exact ⟨evalSnapshot s.defaultValues cfg
          (some (FlareFlags.mkUser i p)),
        by rw [keysOf_evalSnapshot, hdv], rfl, rfl⟩
  | reset =>
      rw [FlareFlags.applyAction, reset_char s hk' hnd']
      exact ⟨s.defaultValues, by rw [hdv], rfl, rfl⟩
  | subscribe l => simp [FFAction.isMutation] at ha

theorem C5_notification_policy_witness :
    (FlareFlags.applyAction
        (FlareFlags.run [("a", false)] [.subscribe 7])
        (.setConfig ⟨[], [("a", (true, []))]⟩)).notifyLog
      = (FlareFlags.run [("a", false)] [.subscribe 7]).notifyLog
        ++ [(FlareFlags.run [("a", false)] [.subscribe 7]).listeners] :=
  (C5_notification_policy [("a", false)] [.subscribe 7]
      (.setConfig ⟨[], [("a", (true, []))]⟩) (by decide) (by decide)).1
    ⟨"a", by decide, by decide⟩

/-- Claim C6: after `reset()` on any reachable state, the subject is absent, the
stored configuration is untouched, every default-universe flag reads its
construction-time default, one notification round fires iff the snapshot
differed from the defaults (silent otherwise), and a subsequent `identify`
re-evaluates against the still-held configuration. -/
theorem C6_reset_roundtrip (ds : List (String × Bool)) (acts : List FFAction)
    (hnd : (keysOf ds).Nodup) :
    (FlareFlags.reset (FlareFlags.run ds acts)).user = none
    ∧ (FlareFlags.reset (FlareFlags.run ds acts)).config
        = (FlareFlags.run ds acts).config
    ∧ (∀ f d, recordGet ds f = some d →
        FlareFlags.isEnabled (FlareFlags.reset (FlareFlags.run ds acts)) f = d)
    ∧ ((FlareFlags.run ds acts).evalFlagValues = ds →
        (FlareFlags.reset (FlareFlags.run ds acts)).notifyLog
          = (FlareFlags.run ds acts).notifyLog)
    ∧ ((FlareFlags.run ds acts).evalFlagValues ≠ ds →
        (FlareFlags.reset (FlareFlags.run ds acts)).notifyLog
          = (FlareFlags.run ds acts).notifyLog
            ++ [(FlareFlags.run ds acts).listeners])
    ∧ (∀ (i : String) (p : Properties) (cfg : Config),
        (FlareFlags.run ds acts).config = some cfg →
        (FlareFlags.identify
            (FlareFlags.reset (FlareFlags.run ds acts)) i p).evalFlagValues
          = evalSnapshot ds cfg (some (FlareFlags.mkUser i p))) := by
  obtain ⟨hdv, hk, hls, hcs⟩ := inv_run ds acts hnd
  set s := FlareFlags.run ds acts with hs
  have hk' : keysOf s.evalFlagValues = keysOf s.defaultValues := by
    rw [hdv]; exact hk
  have hnd' : (keysOf s.defaultValues).Nodup := by rw [hdv]; exact hnd
  rw [reset_char s hk' hnd']
  refine ⟨rfl, rfl, ?_, ?_, ?_, ?_⟩
  · intro f d hd
    unfold FlareFlags.isEnabled
    show (recordGet s.defaultValues f).getD false = d
    rw [hdv, hd]
    rfl
  · intro he
    show s.notifyLog ++ _ = s.notifyLog
    rw [if_pos (hdv.symm ▸ he), List.append_nil]
  · intro he
    show s.notifyLog ++ _ = s.notifyLog ++ [s.listeners]
    rw [if_neg (by rw [hdv]; exact he)]
  · intro i p cfg hcfg
    rw [identify_char _ cfg i p (by exact hcfg) (by rfl) (by rw [hdv]; exact hnd)]
    show evalSnapshot s.defaultValues cfg _ = _
    rw [hdv]

theorem C6_reset_roundtrip_witness :
    FlareFlags.isEnabled
      (FlareFlags.reset
        (FlareFlags.run [("a", false)] [.setConfig ⟨[], [("a", (true, []))]⟩]))
      "a" = false :=
  (C6_reset_roundtrip [("a", false)] [.setConfig ⟨[], [("a", (true, []))]⟩]
      (by decide)).2.2.1 "a" false (by decide)

lemma applyA_eq_apply (s : ClientState) (a : FFAction)
    (hs : s.config.isSome = true) (hc : a.isCommon = true) :
    FlareFlagsA.applyAction s a = FlareFlags.applyAction s a := by
  obtain ⟨dv, cf, us, ev, ls, lg⟩ := s
  cases cf with
  | none => simp at hs
  | some cfg =>
      cases a with
      | setConfig c => rfl
      | identify i p => rfl
      | reset => simp [FFAction.isCommon] at hc
      | subscribe l => rfl

lemma config_isSome_applyAction (s : ClientState) (a : FFAction)
    (hs : s.config.isSome = true) :
    (FlareFlags.applyAction s a).config.isSome = true := by
  cases a with
  | setConfig c =>
      show (FlareFlags.setConfig s c).config.isSome = true
      unfold FlareFlags.setConfig
      rw [(evalFlags_frame _).2.1]
      rfl
  | identify i p =>
      show (FlareFlags.identify s i p).config.isSome = true
      unfold FlareFlags.identify
      rw [(evalFlags_frame _).2.1]
      exact hs
  | reset =>
      show (FlareFlags.reset s).config.isSome = true
      rw [(reset_frame s).2.1]
      exact hs
  | subscribe l =>
      show (FlareFlags.subscribe s l).config.isSome = true
      unfold FlareFlags.subscribe
      by_cases hm : l ∈ s.listeners <;> simp [hm, hs]

lemma runA_eq_run_foldl : ∀ (acts : List FFAction) (s : ClientState),
    s.config.isSome = true → (∀ a ∈ acts, a.isCommon = true) →
    acts.foldl FlareFlagsA.applyAction s = acts.foldl FlareFlags.applyAction s
  | [], _, _, _ => rfl
  | a :: acts, s, hs, hacts => by
      rw [List.foldl_cons, List.foldl_cons,
        applyA_eq_apply s a hs (hacts a (by simp)),
        runA_eq_run_foldl acts _ (config_isSome_applyAction s a hs)
          (fun x hx => hacts x (by simp [hx]))]

/-- Claim C10: on the common interface (`setConfig`, `identify`/`indenify`,
`subscribe`, reads) the two `FlareFlags` rewrites are observationally
equivalent: over the same defaults and the same call sequence, every flag
reads the same in both, and the notification logs — hence the number of
times each registered listener was fired — coincide.  (Their `#evalFlags`
bodies differ only in the falsy-config branch, which is unreachable: the
config field always holds an object.) -/
theorem C10_classes_equivalent (ds : List (String × Bool))
    (acts : List FFAction) (hacts : ∀ a ∈ acts, a.isCommon = true) :
    (∀ f, FlareFlagsA.isEnabled (FlareFlagsA.run ds acts) f
        = FlareFlags.isEnabled (FlareFlags.run ds acts) f)
    ∧ (FlareFlagsA.run ds acts).notifyLog
        = (FlareFlags.run ds acts).notifyLog
    ∧ ∀ l : Nat,
        ((FlareFlagsA.run ds acts).notifyLog.countP fun r => decide (l ∈ r))
          = ((FlareFlags.run ds acts).notifyLog.countP fun r =>
              decide (l ∈ r)) := by
  have heq : FlareFlagsA.run ds acts = FlareFlags.run ds acts :=
    runA_eq_run_foldl acts (FlareFlags.init ds) rfl hacts
  rw [heq]
  exact ⟨fun f => rfl, rfl, fun l => rfl⟩

theorem C10_classes_equivalent_witness :
    FlareFlagsA.isEnabled
      (FlareFlagsA.run [("a", false)]
        [.subscribe 1, .setConfig ⟨[], [("a", (false, [.id "u1"]))]⟩,
         .identify "u1" []]) "a"
      = FlareFlags.isEnabled
          (FlareFlags.run [("a", false)]
            [.subscribe 1, .setConfig ⟨[], [("a", (false, [.id "u1"]))]⟩,
             .identify "u1" []]) "a" :=
  (C10_classes_equivalent [("a", false)]
      [.subscribe 1, .setConfig ⟨[], [("a", (false, [.id "u1"]))]⟩,
       .identify "u1" []] (by decide)).1 "a"

/-! ### Concrete sanity scenarios (from the spec's test-property section) -/

example : strStartsWith "__cohort__beta" COHORT_MARKER = true := by decide
example : strDrop "__cohort__beta" COHORT_MARKER.length = "beta" := by decide
example : matchUser [("id", Value.str "u1")] [.id "u1"] = true := by decide
example : matchUser [("id", Value.str "u1")] [.id "__cohort__beta"] ["beta"] = true := by decide
example : matchUser [("id", Value.str "u1"), ("a", Value.num 1)]
    [.props [("a", Value.num 1)]] = true := by decide
example : matchUser [("id", Value.str "u1"), ("a", Value.str "1")]
    [.props [("a", Value.num 1)]] = false := by decide

-- scenario from the spec: defaults {a:false}; setConfig flags {a:[false,"u1"]};
-- then identify "u1" enables a and fires exactly one notification.
example :
    let s := FlareFlags.run [("a", false)]
      [.subscribe 0, .setConfig ⟨[], [("a", (false, [.id "u1"]))]⟩,
       .identify "u1" []]
    FlareFlags.isEnabled s "a" = true ∧ s.notifyLog = [[0]] := by decide

-- cohort scenario: premium cohort by property, flag via cohort reference.
example :
    let s := FlareFlags.run [("a", false), ("b", false)]
      [.identify "x" [("plan", Value.str "premium")],
       .setConfig ⟨[("premium", [.props [("plan", Value.str "premium")]])],
         [("a", (false, [.id "__cohort__premium"]))]⟩]
    FlareFlags.isEnabled s "a" = true ∧ FlareFlags.isEnabled s "b" = false := by
  decide

-- reset keeps the config, clears the user, restores defaults.
example :
    let s := FlareFlags.run [("a", false)]
      [.setConfig ⟨[], [("a", (true, []))]⟩, .reset]
    FlareFlags.isEnabled s "a" = false ∧ s.user = none ∧
      s.config = some ⟨[], [("a", (true, []))]⟩ := by decide
